import Mathlib

/-!
Verification development for the terraform-trail repository.

The definitions below are a shallow embedding of the repository's
state-diff and test-execution code:

* `internal/command/jsonformat/differ/change.go` — the `Change` struct and
  its `calculateChange`, `getDefaultActionForIteration`, `compareActions`
  and `asDiff` functions (package `differ`), and
* the `local` test-runner in the same source file — `TestFileRunner.Test`,
  `TestFileRunner.wait`, `TestFileRunner.cleanup` and
  `TestFileRunner.AddVariablesToConfig`.

Parts of the repository that the claims depend on but whose source is not
under `src/` (the `plans.Action` enum, the `moduletest.Status` enum, the
`replace` and `computed` helper packages, the differ's unknown-value and
set-value processing, and the state backend's read/write pair) are
modelled from the specification; each such definition carries a doc
comment beginning with `Modelled from the spec:`.
-/

namespace TerraformTrail

/-- Generic JSON values, the shallow embedding of the Go `interface{}`
values produced by `unmarshalGeneric` in `differ/change.go`.  JSON numbers
(Go `float64`) are abstracted as integers and JSON objects
(Go `map[string]interface{}`) as ordered association lists; no claim in
this development depends on numeric representation or on object key
order. -/
inductive JSON where
  | bool (b : Bool)
  | num (n : Int)
  | str (s : String)
  | arr (elems : List JSON)
  | obj (fields : List (String × JSON))

mutual

/-- Decidable equality for `JSON`, written by hand because the nested
lists defeat the deriving handler. -/
def JSON.decEq : (a b : JSON) → Decidable (a = b)
  | .bool x, .bool y =>
    if h : x = y then .isTrue (by rw [h]) else .isFalse (fun hc => h (by injection hc))
  | .num x, .num y =>
    if h : x = y then .isTrue (by rw [h]) else .isFalse (fun hc => h (by injection hc))
  | .str x, .str y =>
    if h : x = y then .isTrue (by rw [h]) else .isFalse (fun hc => h (by injection hc))
  | .arr x, .arr y =>
    match JSON.decEqList x y with
    | .isTrue h => .isTrue (by rw [h])
    | .isFalse h => .isFalse (fun hc => h (by injection hc))
  | .obj x, .obj y =>
    match JSON.decEqObj x y with
    | .isTrue h => .isTrue (by rw [h])
    | .isFalse h => .isFalse (fun hc => h (by injection hc))
  | .bool _, .num _ => .isFalse (fun hc => JSON.noConfusion hc)
  | .bool _, .str _ => .isFalse (fun hc => JSON.noConfusion hc)
  | .bool _, .arr _ => .isFalse (fun hc => JSON.noConfusion hc)
  | .bool _, .obj _ => .isFalse (fun hc => JSON.noConfusion hc)
  | .num _, .bool _ => .isFalse (fun hc => JSON.noConfusion hc)
  | .num _, .str _ => .isFalse (fun hc => JSON.noConfusion hc)
  | .num _, .arr _ => .isFalse (fun hc => JSON.noConfusion hc)
  | .num _, .obj _ => .isFalse (fun hc => JSON.noConfusion hc)
  | .str _, .bool _ => .isFalse (fun hc => JSON.noConfusion hc)
  | .str _, .num _ => .isFalse (fun hc => JSON.noConfusion hc)
  | .str _, .arr _ => .isFalse (fun hc => JSON.noConfusion hc)
  | .str _, .obj _ => .isFalse (fun hc => JSON.noConfusion hc)
  | .arr _, .bool _ => .isFalse (fun hc => JSON.noConfusion hc)
  | .arr _, .num _ => .isFalse (fun hc => JSON.noConfusion hc)
  | .arr _, .str _ => .isFalse (fun hc => JSON.noConfusion hc)
  | .arr _, .obj _ => .isFalse (fun hc => JSON.noConfusion hc)
  | .obj _, .bool _ => .isFalse (fun hc => JSON.noConfusion hc)
  | .obj _, .num _ => .isFalse (fun hc => JSON.noConfusion hc)
  | .obj _, .str _ => .isFalse (fun hc => JSON.noConfusion hc)
  | .obj _, .arr _ => .isFalse (fun hc => JSON.noConfusion hc)

/-- Decidable equality for lists of `JSON` values. -/
def JSON.decEqList : (a b : List JSON) → Decidable (a = b)
  | [], [] => .isTrue rfl
  | [], _ :: _ => .isFalse (fun hc => List.noConfusion hc)
  | _ :: _, [] => .isFalse (fun hc => List.noConfusion hc)
  | x :: xs, y :: ys =>
    match JSON.decEq x y with
    | .isTrue h1 =>
      match JSON.decEqList xs ys with
      | .isTrue h2 => .isTrue (by rw [h1, h2])
      | .isFalse h2 => .isFalse (fun hc => h2 (by injection hc))
    | .isFalse h1 => .isFalse (fun hc => h1 (by injection hc))

/-- Decidable equality for JSON object field lists. -/
def JSON.decEqObj : (a b : List (String × JSON)) → Decidable (a = b)
  | [], [] => .isTrue rfl
  | [], _ :: _ => .isFalse (fun hc => List.noConfusion hc)
  | _ :: _, [] => .isFalse (fun hc => List.noConfusion hc)
  | (k, v) :: xs, (l, w) :: ys =>
    if hk : k = l then
      match JSON.decEq v w with
      | .isTrue h1 =>
        match JSON.decEqObj xs ys with
        | .isTrue h2 => .isTrue (by rw [hk, h1, h2])
        | .isFalse h2 => .isFalse (fun hc => h2 (by injection hc))
      | .isFalse h1 => .isFalse (fun hc => h1 (by injection hc with h h2; injection h with h3 h4))
    else
      .isFalse (fun hc => hk (by injection hc with h h2; injection h with h3 h4))

end

instance : DecidableEq JSON :=
  JSON.decEq

/-- Embedding of Go `reflect.DeepEqual` restricted to the unmarshalled
JSON values used by the differ: structural equality, with `none` playing
the role of the nil interface. -/
def deepEqual (a b : Option JSON) : Bool :=
  decide (a = b)

/-- Modelled from the spec: the plan action enum (`plans.Action`, not
under `src/`).  The spec's Change data model lists the actions as
"one of NoOp, Create, Update, Delete, Replace, Read". -/
inductive Action where
  | noOp
  | create
  | read
  | update
  | delete
  | replace
deriving DecidableEq

/-- Modelled from the spec: the `replace.ForcesReplacement` type of the
differ's `replace` helper package (not under `src/`).  The spec describes
it as "a set of attribute paths that force replacement"; `differ/change.go`
calls its `ForcesReplacement()` method, which reports whether the value at
the current level is itself forcing replacement, i.e. whether some
recorded path is empty. -/
structure ForcesReplacement where
  paths : List (List JSON)
deriving DecidableEq

/-- Modelled from the spec: `ForcesReplacement()` is true when one of the
recorded force-replacement paths points at the current value (is empty). -/
def ForcesReplacement.forcesReplacement (fr : ForcesReplacement) : Bool :=
  fr.paths.any (fun p => p.isEmpty)

/-- The `differ.Change` struct from `differ/change.go`: the unmarshalled
before/after values, the explicit flags for each side, the unknown-after
mark, the sensitivity marks for each side, and the force-replacement
paths. -/
structure Change where
  BeforeExplicit : Bool
  AfterExplicit : Bool
  Before : Option JSON
  After : Option JSON
  Unknown : Option JSON
  BeforeSensitive : Option JSON
  AfterSensitive : Option JSON
  ReplacePaths : ForcesReplacement
deriving DecidableEq

/-- Modelled from the spec: the differ's helper that interprets a per-side
mark (sensitivity or unknown), whose source file is not under `src/`.
A mark applies to the whole value exactly when the mark is the JSON
boolean `true`; nested list/map marks describe children only. -/
def markIsSet : Option JSON → Bool
  | some (.bool b) => b
  | _ => false

/-- The differ's `isBeforeSensitive`: whether the whole Before value is
marked sensitive (helper not under `src/`, see `markIsSet`). -/
def Change.isBeforeSensitive (c : Change) : Bool :=
  markIsSet c.BeforeSensitive

/-- The differ's `isAfterSensitive`: whether the whole After value is
marked sensitive (helper not under `src/`, see `markIsSet`). -/
def Change.isAfterSensitive (c : Change) : Bool :=
  markIsSet c.AfterSensitive

/-- The differ's `isUnknown`: whether the whole After value is unknown at
plan time (helper not under `src/`, see `markIsSet`). -/
def Change.isUnknown (c : Change) : Bool :=
  markIsSet c.Unknown

/-- `Change.calculateChange` from `differ/change.go` lines 102-115:
Create when the before value is nil and implicit while the after value is
present or explicit; Delete symmetrically; NoOp when the values are
deep-equal with matching explicit flags and matching sensitivity; Update
otherwise. -/
def Change.calculateChange (c : Change) : Action :=
  if (c.Before = none ∧ c.BeforeExplicit = false) ∧ (c.After ≠ none ∨ c.AfterExplicit = true) then
    .create
  else if (c.After = none ∧ c.AfterExplicit = false) ∧ (c.Before ≠ none ∨ c.BeforeExplicit = true) then
    .delete
  else if deepEqual c.Before c.After = true ∧ c.AfterExplicit = c.BeforeExplicit ∧ c.isAfterSensitive = c.isBeforeSensitive then
    .noOp
  else
    .update

/-- `Change.getDefaultActionForIteration` from `differ/change.go` lines
127-139: Create or Delete when exactly one side is nil, NoOp otherwise. -/
def Change.getDefaultActionForIteration (c : Change) : Action :=
  if c.Before = none ∧ c.After = none then
    .noOp
  else if c.Before = none then
    .create
  else if c.After = none then
    .delete
  else
    .noOp

/-- `compareActions` from `differ/change.go` lines 147-156: keep `current`
when `next` is NoOp or equal to it, and coarsen to Update when they
differ. -/
def compareActions (current next : Action) : Action :=
  if next = .noOp then
    current
  else if current ≠ next then
    .update
  else
    current

/-- Modelled from the spec: the `computed.Diff` value produced for
rendering (package `computed`, not under `src/`).  It pairs the derived
action with the boolean replace mark; the renderer component is not
needed by any claim and is omitted. -/
structure Diff where
  action : Action
  replace : Bool
deriving DecidableEq

/-- Modelled from the spec: `computed.NewDiff` constructs a `Diff` from an
action and a replace flag (package `computed`, not under `src/`). -/
def NewDiff (action : Action) (replace : Bool) : Diff :=
  ⟨action, replace⟩

/-- `Change.asDiff` from `differ/change.go` lines 98-100: the rendered
diff carries the action computed by `calculateChange` and the replace
flag computed by `ReplacePaths.ForcesReplacement()`. -/
def Change.asDiff (c : Change) : Diff :=
  NewDiff c.calculateChange c.ReplacePaths.forcesReplacement

/-- Modelled from the spec: the differ's unknown-value processing (the
`checkForUnknownType` / `processUnknown` path of the attribute dispatch,
not under `src/`).  The spec's Diff Engine contract states: "If desired
value is unknown at plan time (depends on another resource not yet
applied), marks attribute unknown-after=true and action escalates to at
least Update."  When the whole After value is unknown the attribute is
rendered as `(known after apply)` with action Update; otherwise the
action falls through to `calculateChange`. -/
def Change.computeDiffActionForAttribute (c : Change) : Action :=
  if c.isUnknown then .update else c.calculateChange

/-- Modelled from the spec: child diff actions of a set-typed attribute
(the differ's set processing, not under `src/`).  The spec requires
"Set-typed attributes are compared by content equality over the set, not
by positional index".  Each prior element that also occurs in the desired
set is matched by content and contributes a NoOp child; unmatched prior
elements contribute Delete children and unmatched desired elements
contribute Create children. -/
def setChildActions (before after : List JSON) : List Action :=
  before.map (fun x => if after.contains x then Action.noOp else Action.delete) ++
    (after.filter (fun y => !before.contains y)).map (fun _ => Action.create)

/-- Modelled from the spec: the overall action of a set-typed attribute
with both sides present, folded from the content-matched child actions
with `compareActions` starting from the NoOp default of
`getDefaultActionForIteration`. -/
def computeDiffActionAsSet (before after : List JSON) : Action :=
  (setChildActions before after).foldl compareActions .noOp

end TerraformTrail

namespace TerraformTrail

theorem compareActions_noOp_right (cur : Action) : compareActions cur .noOp = cur := by
  simp [compareActions]

theorem calculateChange_ne_replace (c : Change) : c.calculateChange ≠ .replace := by
  unfold Change.calculateChange
  split
  · exact fun hc => Action.noConfusion hc
  · split
    · exact fun hc => Action.noConfusion hc
    · split
      · exact fun hc => Action.noConfusion hc
      · exact fun hc => Action.noConfusion hc

/-- C1: a Change whose before value equals its after value, whose
explicit flags agree on both sides, whose sensitivity marks agree on both
sides, and in which no force-replace attribute changed, is computed as
NoOp by `calculateChange`. -/
theorem calculateChange_noOp_of_unchanged (c : Change)
    (hB : c.Before = c.After) (hE : c.BeforeExplicit = c.AfterExplicit)
    (hS : c.BeforeSensitive = c.AfterSensitive)
    (hR : c.ReplacePaths.forcesReplacement = false) :
    c.calculateChange = .noOp := by
  have h1 : ¬ ((c.Before = none ∧ c.BeforeExplicit = false) ∧
      (c.After ≠ none ∨ c.AfterExplicit = true)) := by
    rintro ⟨⟨ha, hb⟩, hc⟩
    rcases hc with hc | hc
    · exact hc (hB ▸ ha)
    · rw [hE] at hb
      rw [hb] at hc
      exact Bool.noConfusion hc
  have h2 : ¬ ((c.After = none ∧ c.AfterExplicit = false) ∧
      (c.Before ≠ none ∨ c.BeforeExplicit = true)) := by
    rintro ⟨⟨ha, hb⟩, hc⟩
    rcases hc with hc | hc
    · exact hc (hB.trans ha)
    · rw [hE, hb] at hc
      exact Bool.noConfusion hc
  have h3 : deepEqual c.Before c.After = true ∧ c.AfterExplicit = c.BeforeExplicit ∧
      c.isAfterSensitive = c.isBeforeSensitive := by
    refine ⟨by simp [deepEqual, hB], hE.symm, ?_⟩
    simp [Change.isAfterSensitive, Change.isBeforeSensitive, hS]
  unfold Change.calculateChange
  rw [if_neg h1, if_neg h2, if_pos h3]

/-- C1 witness: a concrete unchanged Change evaluates to NoOp. -/
theorem calculateChange_noOp_of_unchanged_witness :
    (let c := Change.mk false false (some (.str "a")) (some (.str "a")) none
      (some (.bool false)) (some (.bool false)) ⟨[]⟩
    c.calculateChange = .noOp) :=
  calculateChange_noOp_of_unchanged _ (by decide) (by decide) (by decide) (by decide)

/-- C2: a Change whose before value is absent and implicit while its
after value is present or explicit is computed as Create, and a Change
whose after value is absent and implicit while its before value is
present or explicit is computed as Delete. -/
theorem calculateChange_create_delete_of_absent (c : Change) :
    ((c.Before = none ∧ c.BeforeExplicit = false) ∧ (c.After ≠ none ∨ c.AfterExplicit = true) →
      c.calculateChange = .create) ∧
    ((c.After = none ∧ c.AfterExplicit = false) ∧ (c.Before ≠ none ∨ c.BeforeExplicit = true) →
      c.calculateChange = .delete) := by
  constructor
  · intro h
    unfold Change.calculateChange
    rw [if_pos h]
  · intro h
    have h1 : ¬ ((c.Before = none ∧ c.BeforeExplicit = false) ∧
        (c.After ≠ none ∨ c.AfterExplicit = true)) := by
      rintro ⟨⟨ha, hb⟩, hc⟩
      rcases h with ⟨⟨hd, he⟩, hf⟩
      rcases hc with hc | hc
      · exact hc hd
      · rw [he] at hc
        exact Bool.noConfusion hc
    unfold Change.calculateChange
    rw [if_neg h1, if_pos h]

/-- C2 witness: concrete absent-before and absent-after Changes evaluate
to Create and Delete respectively. -/
theorem calculateChange_create_delete_of_absent_witness :
    (Change.mk false false none (some (.str "a")) none none none ⟨[]⟩).calculateChange = .create ∧
    (Change.mk false false (some (.str "a")) none none none none ⟨[]⟩).calculateChange = .delete :=
  ⟨(calculateChange_create_delete_of_absent _).1 (by decide),
   (calculateChange_create_delete_of_absent _).2 (by decide)⟩

/-- C3: when the After value is marked unknown at plan time the computed
attribute action is Update — in particular it is never NoOp, even when
the recorded before and after values are equal. -/
theorem unknown_after_escalates_to_update (c : Change)
    (h : c.isUnknown = true) :
    c.computeDiffActionForAttribute = .update ∧ c.computeDiffActionForAttribute ≠ .noOp := by
  unfold Change.computeDiffActionForAttribute
  rw [if_pos h]
  exact ⟨rfl, fun hc => Action.noConfusion hc⟩

/-- C3 witness: a concrete Change with equal before/after values but an
unknown After still computes as Update. -/
theorem unknown_after_escalates_to_update_witness :
    (let c := Change.mk true true (some (.str "a")) (some (.str "a")) (some (.bool true))
      none none ⟨[]⟩
    c.computeDiffActionForAttribute = .update ∧ c.computeDiffActionForAttribute ≠ .noOp) :=
  unknown_after_escalates_to_update _ (by decide)

/-- C4: set-typed attributes are compared by content, not position — a
prior and a desired set holding the same elements in a different order
produce action NoOp for the attribute. -/
theorem set_reorder_noOp (before after : List JSON)
    (h : before.Perm after) :
    computeDiffActionAsSet before after = .noOp := by
  have hmem : ∀ x, x ∈ before ↔ x ∈ after := fun x => h.mem_iff
  have hchildren : setChildActions before after = List.replicate before.length .noOp := by
    unfold setChildActions
    have hfilter : after.filter (fun y => !before.contains y) = [] := by
      rw [List.filter_eq_nil_iff]
      intro y hy
      simp only [Bool.not_eq_true', Bool.not_eq_false]
      exact List.elem_eq_true_of_mem ((hmem y).mpr hy)
    rw [hfilter]
    simp only [List.map_nil, List.append_nil]
    rw [List.eq_replicate_iff]
    refine ⟨by simp, ?_⟩
    intro b hb
    rcases List.mem_map.mp hb with ⟨x, hx, hxb⟩
    rw [← hxb, if_pos (List.elem_eq_true_of_mem ((hmem x).mp hx))]
  unfold computeDiffActionAsSet
  rw [hchildren]
  generalize before.length = n
  induction n with
  | zero => rfl
  | succ k ih =>
    rw [List.replicate_succ, List.foldl_cons, compareActions_noOp_right]
    exact ih

/-- C4 witness: the spec's scenario — prior set elements a, b and desired
set elements b, a (reordered) produce NoOp. -/
theorem set_reorder_noOp_witness :
    computeDiffActionAsSet [.str "a", .str "b"] [.str "b", .str "a"] = .noOp :=
  set_reorder_noOp _ _ (by decide)

/-- C5 counterexample: a Change whose (root) force-replace path differs
between before and after is rendered with action Update, not with the
Replace action — the forced replacement is recorded in the separate
replace flag instead. -/
theorem forceReplace_update_not_replace_counterexample :
    (let c := Change.mk true true (some (.str "a")) (some (.str "b")) none none none ⟨[[]]⟩
    c.ReplacePaths.forcesReplacement = true ∧
      c.asDiff.action = .update ∧ c.asDiff.action ≠ .replace) := by
  decide

/-- C5 amended: when a force-replace attribute path differs between the
before and after values — both sides present and with different
values — `asDiff` marks the rendered diff as forcing replacement
(replace flag true), while its action field, computed by
`calculateChange`, is Update and never the literal Replace action; the
forced replacement is carried by the flag, not by the action. -/
theorem forceReplace_marks_replace_flag (c : Change) (b a : JSON)
    (hB : c.Before = some b) (hA : c.After = some a) (hne : b ≠ a)
    (h : c.ReplacePaths.forcesReplacement = true) :
    c.asDiff.replace = true ∧ c.asDiff.action = .update ∧
      c.asDiff.action ≠ .replace := by
  have h1 : ¬ ((c.Before = none ∧ c.BeforeExplicit = false) ∧
      (c.After ≠ none ∨ c.AfterExplicit = true)) := by
    rintro ⟨⟨hnone, _⟩, _⟩
    rw [hB] at hnone
    exact Option.noConfusion hnone
  have h2 : ¬ ((c.After = none ∧ c.AfterExplicit = false) ∧
      (c.Before ≠ none ∨ c.BeforeExplicit = true)) := by
    rintro ⟨⟨hnone, _⟩, _⟩
    rw [hA] at hnone
    exact Option.noConfusion hnone
  have h3 : ¬ (deepEqual c.Before c.After = true ∧ c.AfterExplicit = c.BeforeExplicit ∧
      c.isAfterSensitive = c.isBeforeSensitive) := by
    rintro ⟨hdeq, _, _⟩
    rw [hB, hA] at hdeq
    simp only [deepEqual, decide_eq_true_eq, Option.some.injEq] at hdeq
    exact hne hdeq
  have hact : c.calculateChange = .update := by
    unfold Change.calculateChange
    rw [if_neg h1, if_neg h2, if_neg h3]
  refine ⟨by simp [Change.asDiff, NewDiff, h], hact, calculateChange_ne_replace c⟩

/-- C5 amended witness: the same concrete Change, via the amended
theorem. -/
theorem forceReplace_marks_replace_flag_witness :
    (let c := Change.mk true true (some (.str "a")) (some (.str "b")) none none none ⟨[[]]⟩
    c.asDiff.replace = true ∧ c.asDiff.action = .update ∧ c.asDiff.action ≠ .replace) :=
  forceReplace_marks_replace_flag _ (.str "a") (.str "b") rfl rfl (by decide) (by decide)

/-- C9: `compareActions` has NoOp as a right identity, is idempotent on
equal arguments, and coarsens any two distinct actions (with the second
not NoOp) to Update. -/
theorem compareActions_algebra (a b : Action) :
    compareActions a .noOp = a ∧ compareActions a a = a ∧
    (a ≠ b → b ≠ .noOp → compareActions a b = .update) := by
  refine ⟨compareActions_noOp_right a, ?_, ?_⟩
  · by_cases h : a = Action.noOp
    · simp [compareActions, h]
    · simp [compareActions, h]
  · intro hne hb
    simp [compareActions, hb, hne]

/-- C9 witness: concrete instances of the three algebraic properties. -/
theorem compareActions_algebra_witness :
    compareActions .create .noOp = .create ∧ compareActions .create .create = .create ∧
    compareActions .create .delete = .update :=
  ⟨(compareActions_algebra .create .delete).1, (compareActions_algebra .create .delete).2.1,
   (compareActions_algebra .create .delete).2.2 (by decide) (by decide)⟩

end TerraformTrail

namespace TerraformTrail

/-- Modelled from the spec: the `moduletest.Status` enum (not under
`src/`).  The statuses observed in `TestFileRunner.Test` are Pending (the
zero value), Skip, Pass, Fail and Error, ordered by increasing
severity. -/
inductive Status where
  | pending
  | skip
  | pass
  | fail
  | error
deriving DecidableEq

/-- Severity rank of a status, following the declaration order of the
enum. -/
def Status.rank : Status → Nat
  | .pending => 0
  | .skip => 1
  | .pass => 2
  | .fail => 3
  | .error => 4

/-- Modelled from the spec: `Status.Merge` (not under `src/`) keeps the
more severe of the current status and the next one, so a file's status is
the worst status of its runs. -/
def Status.merge (s next : Status) : Status :=
  if s.rank < next.rank then next else s

/-- The observable fate of one run block in `TestFileRunner.Test`: the
status recorded on the run, and whether `runner.run` (the run's provider
operation) was actually invoked for it. -/
structure RunOutcome where
  status : Status
  invoked : Bool
deriving DecidableEq

/-- The run-dispatch loop of `TestFileRunner.Test` (`differ/change.go`
lines 444-515).  `results` abstracts `runner.run`: the status the run
block would produce were it executed.  `stopped` and `cancelled` sample
`runner.Suite.Stopped` / `runner.Suite.Cancelled` at the top of each
iteration (they are set asynchronously by the user's interrupts), indexed
by the iteration counter `i`.  On `Cancelled` the loop merges Error into
the file status and returns at once, marking nothing else; on `Stopped`
the run is marked Skip and never executed; once the file status is Error
each remaining run is marked Skip and never executed; otherwise the run
executes and its status is merged into the file status. -/
def testLoop (stopped cancelled : Nat → Bool) (results : List Status) (i : Nat)
    (fileStatus : Status) : List RunOutcome × Status :=
  match results with
  | [] => ([], fileStatus)
  | r :: rest =>
    if cancelled i then
      ([], fileStatus.merge .error)
    else if stopped i then
      let next := testLoop stopped cancelled rest (i + 1) fileStatus
      (⟨.skip, false⟩ :: next.1, next.2)
    else if fileStatus = .error then
      let next := testLoop stopped cancelled rest (i + 1) fileStatus
      (⟨.skip, false⟩ :: next.1, next.2)
    else
      let next := testLoop stopped cancelled rest (i + 1) (fileStatus.merge r)
      (⟨r, true⟩ :: next.1, next.2)

/-- `TestFileRunner.Test` on one file (`differ/change.go` lines 434-441
followed by the dispatch loop): the file status starts from the zero
value merged with Skip, merged with Pass when there are no run blocks. -/
def fileTest (stopped cancelled : Nat → Bool) (results : List Status) :
    List RunOutcome × Status :=
  let s0 := Status.pending.merge .skip
  let s1 := if results.isEmpty then s0.merge .pass else s0
  testLoop stopped cancelled results 0 s1

/-- Events observed by `TestFileRunner.wait` (`differ/change.go` lines
942-1035): the two-second progress tick, the soft interrupt
(`StoppedCtx`), the hard interrupt (`CancelledCtx`), and the completion
of the in-flight operation (`runningCtx`). -/
inductive WaitEvent where
  | tick
  | stopSignal
  | cancelSignal
  | opDone
deriving DecidableEq

/-- Which select loop of `TestFileRunner.wait` is currently running: the
outer loop, `handleStopped`, or `handleCancelled`. -/
inductive WaitMode where
  | normal
  | softStop
  | hardCancel
deriving DecidableEq

/-- The state of `TestFileRunner.wait`: the loop mode, the `finished`
flag, the `cancelled` return value, whether `ctx.Stop()` was invoked
(the best-effort abort request of a hard cancel), and whether
`FatalInterruptSummary` was emitted. -/
structure WaitState where
  mode : WaitMode
  finished : Bool
  cancelled : Bool
  stopRequested : Bool
  interruptReported : Bool
deriving DecidableEq

/-- One event step of `TestFileRunner.wait`.  The operation finishing
always sets `finished` and ends the wait.  In the outer loop a soft
interrupt moves to `handleStopped`, which keeps waiting; a hard interrupt
(from either the outer loop or `handleStopped`) runs `handleCancelled`:
it reports the fatal interrupt, records `cancelled = true`, and fires
`go ctx.Stop()`, then keeps waiting only for the operation.  Ticks and
redundant signals change nothing. -/
def waitStep (s : WaitState) (e : WaitEvent) : WaitState :=
  if s.finished then s
  else
    match s.mode, e with
    | _, .opDone => { s with finished := true }
    | .normal, .stopSignal => { s with mode := .softStop }
    | .normal, .cancelSignal =>
      { s with mode := .hardCancel, cancelled := true, stopRequested := true,
               interruptReported := true }
    | .softStop, .cancelSignal =>
      { s with mode := .hardCancel, cancelled := true, stopRequested := true,
               interruptReported := true }
    | _, _ => s

/-- The initial state of `TestFileRunner.wait`. -/
def waitInit : WaitState :=
  ⟨.normal, false, false, false, false⟩

/-- `TestFileRunner.wait` as a whole: process the observed events in
order. -/
def waitRun (events : List WaitEvent) : WaitState :=
  events.foldl waitStep waitInit

end TerraformTrail

namespace TerraformTrail

theorem Status.merge_error (s : Status) : s.merge .error = .error := by
  cases s <;> rfl

theorem testLoop_of_error (stopped : Nat → Bool) (results : List Status) :
    ∀ i, testLoop stopped (fun _ => false) results i .error =
      (results.map (fun _ => ⟨.skip, false⟩), .error) := by
  induction results with
  | nil => intro i; rfl
  | cons r rest ih =>
    intro i
    simp only [testLoop, Bool.false_eq_true, if_false]
    by_cases hs : stopped i
    · rw [if_pos hs, ih (i + 1)]
      simp
    · rw [if_neg hs]
      simp [ih (i + 1)]

theorem testLoop_length_of_no_cancel (stopped : Nat → Bool) (results : List Status) :
    ∀ i s0, (testLoop stopped (fun _ => false) results i s0).1.length = results.length := by
  induction results with
  | nil => intro i s0; rfl
  | cons r rest ih =>
    intro i s0
    simp only [testLoop, Bool.false_eq_true, if_false]
    by_cases hs : stopped i
    · rw [if_pos hs]
      simp [ih]
    · rw [if_neg hs]
      by_cases he : s0 = Status.error
      · rw [if_pos he]
        simp [ih]
      · rw [if_neg he]
        simp [ih]

end TerraformTrail

namespace TerraformTrail

theorem testLoop_error_propagates (results : List Status) :
    ∀ (start : Nat) (s0 : Status) (i j : Nat), i < j → j < results.length →
      ((testLoop (fun _ => false) (fun _ => false) results start s0).1[i]?).map RunOutcome.status =
        some .error →
      (testLoop (fun _ => false) (fun _ => false) results start s0).1[j]? =
        some ⟨.skip, false⟩ := by
  induction results with
  | nil =>
    intro start s0 i j hij hj hi
    exact absurd hj (by simp)
  | cons r rest ih =>
    intro start s0 i j hij hj hi
    simp only [testLoop, Bool.false_eq_true, if_false] at hi ⊢
    by_cases he : s0 = Status.error
    · rw [if_pos he] at hi ⊢
      match i, j with
      | 0, _ =>
        simp at hi
      | i' + 1, j' + 1 =>
        rw [List.getElem?_cons_succ] at hi ⊢
        exact ih (start + 1) s0 i' j' (by omega) (by simpa using hj) hi
    · rw [if_neg he] at hi ⊢
      match i, j with
      | 0, j' + 1 =>
        simp only [List.getElem?_cons_zero, Option.map_some] at hi
        have hr : r = Status.error := by
          have := Option.some.inj hi
          exact this
        rw [List.getElem?_cons_succ]
        rw [hr, Status.merge_error, testLoop_of_error]
        rw [List.getElem?_map]
        have hj' : j' < rest.length := by simpa using hj
        rw [List.getElem?_eq_getElem hj']
        rfl
      | i' + 1, j' + 1 =>
        rw [List.getElem?_cons_succ] at hi ⊢
        exact ih (start + 1) (s0.merge r) i' j' (by omega) (by simpa using hj) hi

/-- C6: in a test file, a run block whose predecessor ended in an error is
marked Skipped and its operation is never invoked, and this skipping
propagates to every subsequent run block of the file. -/
theorem errored_run_skips_all_subsequent (results : List Status) (s0 : Status)
    (i j : Nat) (hij : i < j) (hj : j < results.length)
    (hi : ((testLoop (fun _ => false) (fun _ => false) results 0 s0).1[i]?).map RunOutcome.status =
      some .error) :
    (testLoop (fun _ => false) (fun _ => false) results 0 s0).1[j]? = some ⟨.skip, false⟩ :=
  testLoop_error_propagates results 0 s0 i j hij hj hi

/-- C6 witness: in a four-run file whose second run errors, the third and
later runs are skipped without being invoked. -/
theorem errored_run_skips_all_subsequent_witness :
    ((testLoop (fun _ => false) (fun _ => false) [.pass, .error, .pass, .pass] 0
        .skip).1[1]?).map RunOutcome.status = some .error ∧
    (testLoop (fun _ => false) (fun _ => false) [.pass, .error, .pass, .pass] 0
        .skip).1[2]? = some ⟨.skip, false⟩ :=
  ⟨by decide,
   errored_run_skips_all_subsequent [.pass, .error, .pass, .pass] .skip 1 2
     (by decide) (by decide) (by decide)⟩

end TerraformTrail

namespace TerraformTrail

theorem waitStep_flags_of_ne_cancel (s : WaitState) (e : WaitEvent)
    (he : e ≠ .cancelSignal) :
    (waitStep s e).stopRequested = s.stopRequested ∧
      (waitStep s e).cancelled = s.cancelled := by
  unfold waitStep
  by_cases hf : s.finished
  · rw [if_pos hf]
    exact ⟨rfl, rfl⟩
  · rw [if_neg hf]
    cases e with
    | tick => cases s.mode <;> exact ⟨rfl, rfl⟩
    | stopSignal => cases s.mode <;> exact ⟨rfl, rfl⟩
    | cancelSignal => exact absurd rfl he
    | opDone => cases s.mode <;> exact ⟨rfl, rfl⟩

theorem waitStep_finished_of_finished (s : WaitState) (e : WaitEvent)
    (hf : s.finished = true) : (waitStep s e).finished = true := by
  unfold waitStep
  rw [if_pos hf]
  exact hf

theorem waitStep_not_finished (s : WaitState) (e : WaitEvent)
    (he : e ≠ .opDone) (hf : s.finished = false) :
    (waitStep s e).finished = false := by
  unfold waitStep
  rw [if_neg (by simp [hf])]
  cases e with
  | tick => cases s.mode <;> exact hf
  | stopSignal => cases s.mode <;> exact hf
  | cancelSignal => cases s.mode <;> exact hf
  | opDone => exact absurd rfl he

theorem waitFold_finished_sticky (events : List WaitEvent) :
    ∀ s : WaitState, s.finished = true → (events.foldl waitStep s).finished = true := by
  induction events with
  | nil => intro s hf; exact hf
  | cons e rest ih =>
    intro s hf
    exact ih (waitStep s e) (waitStep_finished_of_finished s e hf)

theorem waitFold_finished_of_opDone (events : List WaitEvent) :
    ∀ s : WaitState, WaitEvent.opDone ∈ events →
      (events.foldl waitStep s).finished = true := by
  induction events with
  | nil =>
    intro s hmem
    exact absurd hmem (List.not_mem_nil _)
  | cons e rest ih =>
    intro s hmem
    by_cases he : e = WaitEvent.opDone
    · subst he
      rw [List.foldl_cons]
      apply waitFold_finished_sticky
      unfold waitStep
      by_cases hf : s.finished
      · rw [if_pos hf]; exact hf
      · rw [if_neg hf]
        cases s.mode <;> rfl
    · rcases List.mem_cons.mp hmem with h | h
      · exact absurd h.symm he
      · exact ih (waitStep s e) h

theorem waitFold_not_finished (events : List WaitEvent) :
    ∀ s : WaitState, WaitEvent.opDone ∉ events → s.finished = false →
      (events.foldl waitStep s).finished = false := by
  induction events with
  | nil => intro s _ hf; exact hf
  | cons e rest ih =>
    intro s hmem hf
    exact ih (waitStep s e) (fun h => hmem (List.mem_cons_of_mem e h))
      (waitStep_not_finished s e (fun hc => hmem (hc ▸ List.mem_cons_self e rest)) hf)

theorem waitFold_no_cancel_flags (events : List WaitEvent) :
    ∀ s : WaitState, WaitEvent.cancelSignal ∉ events →
      (events.foldl waitStep s).stopRequested = s.stopRequested ∧
        (events.foldl waitStep s).cancelled = s.cancelled := by
  induction events with
  | nil => intro s _; exact ⟨rfl, rfl⟩
  | cons e rest ih =>
    intro s hmem
    have he : e ≠ WaitEvent.cancelSignal := fun hc => hmem (hc ▸ List.mem_cons_self e rest)
    have hstep := waitStep_flags_of_ne_cancel s e he
    have hrest := ih (waitStep s e) (fun h => hmem (List.mem_cons_of_mem e h))
    exact ⟨hrest.1.trans hstep.1, hrest.2.trans hstep.2⟩

/-- The hard-cancel invariant: once the wait loop is in `handleCancelled`
the cancellation flags have been recorded. -/
def WaitCancelInv (s : WaitState) : Prop :=
  s.mode = .hardCancel →
    s.stopRequested = true ∧ s.cancelled = true ∧ s.interruptReported = true

theorem waitStep_cancelInv (s : WaitState) (e : WaitEvent) (hinv : WaitCancelInv s) :
    WaitCancelInv (waitStep s e) := by
  unfold waitStep
  by_cases hf : s.finished
  · rw [if_pos hf]; exact hinv
  · rw [if_neg hf]
    cases e with
    | tick => cases hm : s.mode <;> simp_all [WaitCancelInv]
    | stopSignal => cases hm : s.mode <;> simp_all [WaitCancelInv]
    | cancelSignal => cases hm : s.mode <;> simp_all [WaitCancelInv]
    | opDone => cases hm : s.mode <;> simp_all [WaitCancelInv]

theorem waitFold_cancelInv (events : List WaitEvent) :
    ∀ s : WaitState, WaitCancelInv s → WaitCancelInv (events.foldl waitStep s) := by
  induction events with
  | nil => intro s hinv; exact hinv
  | cons e rest ih => intro s hinv; exact ih _ (waitStep_cancelInv s e hinv)

theorem waitStep_flags_sticky (s : WaitState) (e : WaitEvent)
    (h : s.stopRequested = true ∧ s.cancelled = true ∧ s.interruptReported = true) :
    (waitStep s e).stopRequested = true ∧ (waitStep s e).cancelled = true ∧
      (waitStep s e).interruptReported = true := by
  unfold waitStep
  by_cases hf : s.finished
  · rw [if_pos hf]; exact h
  · rw [if_neg hf]
    cases e with
    | tick => cases s.mode <;> exact h
    | stopSignal => cases s.mode <;> exact h
    | cancelSignal => cases s.mode <;> simp_all
    | opDone => cases s.mode <;> exact h

theorem waitFold_flags_sticky (events : List WaitEvent) :
    ∀ s : WaitState,
      s.stopRequested = true ∧ s.cancelled = true ∧ s.interruptReported = true →
      (events.foldl waitStep s).stopRequested = true ∧
        (events.foldl waitStep s).cancelled = true ∧
        (events.foldl waitStep s).interruptReported = true := by
  induction events with
  | nil => intro s h; exact h
  | cons e rest ih => intro s h; exact ih _ (waitStep_flags_sticky s e h)

theorem waitStep_cancel_sets_flags (s : WaitState) (hf : s.finished = false)
    (hinv : WaitCancelInv s) :
    (waitStep s .cancelSignal).stopRequested = true ∧
      (waitStep s .cancelSignal).cancelled = true ∧
      (waitStep s .cancelSignal).interruptReported = true := by
  unfold waitStep
  rw [if_neg (by simp [hf])]
  cases hm : s.mode with
  | normal => exact ⟨rfl, rfl, rfl⟩
  | softStop => exact ⟨rfl, rfl, rfl⟩
  | hardCancel => simpa using hinv hm

end TerraformTrail

namespace TerraformTrail

theorem testLoop_stopped_skips (k : Nat) (results : List Status) :
    ∀ (start : Nat) (s0 : Status) (j : Nat), k ≤ start + j → j < results.length →
      (testLoop (fun x => decide (k ≤ x)) (fun _ => false) results start s0).1[j]? =
        some ⟨.skip, false⟩ := by
  induction results with
  | nil =>
    intro start s0 j hk hj
    exact absurd hj (by simp)
  | cons r rest ih =>
    intro start s0 j hk hj
    simp only [testLoop, Bool.false_eq_true, if_false]
    by_cases hks : k ≤ start
    · rw [if_pos (by simpa using hks)]
      match j with
      | 0 => simp
      | j' + 1 =>
        rw [List.getElem?_cons_succ]
        exact ih (start + 1) s0 j' (by omega) (by simpa using hj)
    · rw [if_neg (by simpa using hks)]
      match j with
      | 0 => exact absurd hk (by omega)
      | j' + 1 =>
        by_cases he : s0 = Status.error
        · rw [if_pos he, List.getElem?_cons_succ]
          exact ih (start + 1) s0 j' (by omega) (by simpa using hj)
        · rw [if_neg he, List.getElem?_cons_succ]
          exact ih (start + 1) (s0.merge r) j' (by omega) (by simpa using hj)

theorem testLoop_cancelled_returns (k : Nat) (results : List Status) :
    ∀ (start : Nat) (s0 : Status), start ≤ k → k - start < results.length →
      (testLoop (fun _ => false) (fun x => decide (k ≤ x)) results start s0).1.length =
        k - start ∧
      (testLoop (fun _ => false) (fun x => decide (k ≤ x)) results start s0).2 = .error := by
  induction results with
  | nil =>
    intro start s0 hks hj
    exact absurd hj (by simp)
  | cons r rest ih =>
    intro start s0 hks hj
    simp only [testLoop, Bool.false_eq_true, if_false]
    by_cases hkc : k ≤ start
    · rw [if_pos (by simpa using hkc)]
      have hk0 : k - start = 0 := by omega
      exact ⟨by simpa using hk0.symm, Status.merge_error s0⟩
    · rw [if_neg (by simpa using hkc)]
      by_cases he : s0 = Status.error
      · rw [if_pos he]
        have := ih (start + 1) s0 (by omega) (by simp at hj ⊢; omega)
        refine ⟨?_, this.2⟩
        simp only [List.length_cons, this.1]
        omega
      · rw [if_neg he]
        have := ih (start + 1) (s0.merge r) (by omega) (by simp at hj ⊢; omega)
        refine ⟨?_, this.2⟩
        simp only [List.length_cons, this.1]
        omega

/-- C7: cancellation semantics of the test runner.  Soft cancellation
(the first interrupt, `Stopped`): from the moment the flag is observed no
further run block is dispatched — each remaining run is marked Skipped
and never invoked — and the wait loop neither requests an abort nor
reports a cancellation, finishing exactly when the in-flight operation
finishes.  Hard cancellation (`Cancelled`): the wait loop asks the
in-flight operation to abort (best-effort `ctx.Stop()`) and reports the
fatal interrupt, and the dispatch loop returns immediately — dispatching
nothing further, with the file marked errored — so execution proceeds
straight to teardown and reporting. -/
theorem cancellation_semantics :
    (∀ (results : List Status) (s0 : Status) (k j : Nat), k ≤ j → j < results.length →
      (testLoop (fun x => decide (k ≤ x)) (fun _ => false) results 0 s0).1[j]? =
        some ⟨.skip, false⟩) ∧
    (∀ events : List WaitEvent, WaitEvent.cancelSignal ∉ events →
      (waitRun events).stopRequested = false ∧ (waitRun events).cancelled = false ∧
      (WaitEvent.opDone ∈ events → (waitRun events).finished = true) ∧
      (WaitEvent.opDone ∉ events → (waitRun events).finished = false)) ∧
    (∀ (results : List Status) (s0 : Status) (k : Nat), k < results.length →
      (testLoop (fun _ => false) (fun x => decide (k ≤ x)) results 0 s0).1.length = k ∧
      (testLoop (fun _ => false) (fun x => decide (k ≤ x)) results 0 s0).2 = .error) ∧
    (∀ pre post : List WaitEvent, WaitEvent.opDone ∉ pre →
      (waitRun (pre ++ WaitEvent.cancelSignal :: post)).stopRequested = true ∧
      (waitRun (pre ++ WaitEvent.cancelSignal :: post)).cancelled = true ∧
      (waitRun (pre ++ WaitEvent.cancelSignal :: post)).interruptReported = true) := by
  refine ⟨?_, ?_, ?_, ?_⟩
  · intro results s0 k j hk hj
    exact testLoop_stopped_skips k results 0 s0 j (by omega) hj
  · intro events hnc
    have hflags := waitFold_no_cancel_flags events waitInit hnc
    refine ⟨hflags.1, hflags.2, ?_, ?_⟩
    · intro hop
      exact waitFold_finished_of_opDone events waitInit hop
    · intro hop
      exact waitFold_not_finished events waitInit hop rfl
  · intro results s0 k hk
    have := testLoop_cancelled_returns k results 0 s0 (by omega) (by simpa using hk)
    exact ⟨by simpa using this.1, this.2⟩
  · intro pre post hop
    unfold waitRun
    rw [List.foldl_append, List.foldl_cons]
    have hpreInv : WaitCancelInv (pre.foldl waitStep waitInit) :=
      waitFold_cancelInv pre waitInit (fun hc => by simp [waitInit] at hc)
    have hpreFin : (pre.foldl waitStep waitInit).finished = false :=
      waitFold_not_finished pre waitInit hop rfl
    exact waitFold_flags_sticky post _
      (waitStep_cancel_sets_flags (pre.foldl waitStep waitInit) hpreFin hpreInv)

/-- C7 witness: concrete instances — a soft stop before the second of two
runs skips it; a wait that sees a soft stop and then completion finishes
without aborting; a hard cancel before the second run returns with one
outcome and an errored file; a wait that sees a hard cancel while the
operation is in flight records the abort request and the report. -/
theorem cancellation_semantics_witness :
    (testLoop (fun x => decide (1 ≤ x)) (fun _ => false) [.pass, .pass] 0 .skip).1[1]? =
      some ⟨.skip, false⟩ ∧
    ((waitRun [.tick, .stopSignal, .opDone]).stopRequested = false ∧
      (waitRun [.tick, .stopSignal, .opDone]).cancelled = false ∧
      (waitRun [.tick, .stopSignal, .opDone]).finished = true) ∧
    ((testLoop (fun _ => false) (fun x => decide (1 ≤ x)) [.pass, .pass] 0 .skip).1.length = 1 ∧
      (testLoop (fun _ => false) (fun x => decide (1 ≤ x)) [.pass, .pass] 0 .skip).2 = .error) ∧
    ((waitRun [.tick, .cancelSignal, .tick, .opDone]).stopRequested = true ∧
      (waitRun [.tick, .cancelSignal, .tick, .opDone]).cancelled = true) := by
  have h := cancellation_semantics
  refine ⟨?_, ?_, ?_, ?_⟩
  · exact h.1 [.pass, .pass] .skip 1 1 (by decide) (by decide)
  · have h2 := h.2.1 [.tick, .stopSignal, .opDone] (by decide)
    exact ⟨h2.1, h2.2.1, h2.2.2.1 (by decide)⟩
  · exact h.2.2.1 [.pass, .pass] .skip 1 (by decide)
  · have h4 := h.2.2.2 [.tick] [.tick, .opDone] (by decide)
    exact ⟨h4.1, h4.2.1⟩

end TerraformTrail

namespace TerraformTrail

/-- Modelled from the spec: an attribute value recorded in the persisted
state — "known concrete value, explicitly null, or unknown — meaning the
value will only be known after the change is applied". -/
inductive AttrValue where
  | known (v : JSON)
  | null
  | unknown
deriving DecidableEq

/-- Modelled from the spec: the persisted record of one resource
instance — address-keyed attribute map, provider-assigned schema version,
per-path sensitivity marks and opaque provider metadata. -/
structure InstanceState where
  schemaVersion : Nat
  attrs : List (String × AttrValue)
  sensitivePaths : List String
  privateMeta : List (String × String)
deriving DecidableEq

/-- Modelled from the spec: the persisted state snapshot — "an opaque
versioned snapshot (schema version + serial + per-address attribute
maps)". -/
structure StateModel where
  version : Nat
  serial : Nat
  resources : List (String × InstanceState)
deriving DecidableEq

/-- Modelled from the spec: the state backend as seen through
`ReadState`/`WriteState` (the backend client whose source is not under
`src/`; only its test `TestPutMaintainsMetaData` is, in
`src/unnamed/part_005`): the currently persisted snapshot. -/
structure StateBackend where
  persisted : StateModel
deriving DecidableEq

/-- Modelled from the spec: `ReadState` returns the persisted snapshot. -/
def ReadState (b : StateBackend) : StateModel :=
  b.persisted

/-- Modelled from the spec: `WriteState` persists a snapshot atomically.
The spec requires both that the serial is "incremented on every
successful Write" and that `WriteState(ReadState())` is "a no-op (no
attribute drift, serial unchanged) when no apply occurred in between";
the consistent reading of the two sentences is that writing a snapshot
equal to the persisted one persists nothing new, while writing changed
content stores it under an incremented serial. -/
def WriteState (b : StateBackend) (st : StateModel) : StateBackend :=
  if st = b.persisted then b
  else ⟨{ st with serial := b.persisted.serial + 1 }⟩

/-- C8: writing back a state that was just read, with no apply in
between, is a no-op — the snapshot (attribute maps, unknown-value
markers, metadata) round-trips exactly and the serial is unchanged. -/
theorem writeState_readState_roundtrip (b : StateBackend) :
    WriteState b (ReadState b) = b ∧
    (WriteState b (ReadState b)).persisted.serial = b.persisted.serial ∧
    (WriteState b (ReadState b)).persisted.resources = b.persisted.resources := by
  have h : WriteState b (ReadState b) = b := by
    unfold WriteState ReadState
    rw [if_pos rfl]
  exact ⟨h, by rw [h], by rw [h]⟩

/-- The cty type of a test variable value, as far as
`AddVariablesToConfig` consults it (`value.Value.Type()`). -/
inductive CtyType where
  | string
  | number
  | bool
  | dynamic
deriving DecidableEq

/-- A source range (`tfdiags.SourceRange` in its HCL form), recorded as
the declaration range of a synthesised variable. -/
structure SourceRange where
  filename : String
  startLine : Nat
  endLine : Nat
deriving DecidableEq

/-- A `terraform.InputValue` as consumed by `AddVariablesToConfig`: only
the value's type and its source range are used. -/
structure InputValue where
  valueType : CtyType
  sourceRange : SourceRange
deriving DecidableEq

/-- A `configs.Variable` definition with the fields that
`AddVariablesToConfig` fills in. -/
structure Variable where
  name : String
  type : CtyType
  constraintType : CtyType
  declRange : SourceRange
deriving DecidableEq

/-- The variable map of a configuration module
(`config.Module.Variables`): a partial map from variable names to their
definitions. -/
def VariableMap : Type :=
  String → Option Variable

/-- `TestFileRunner.AddVariablesToConfig` (`differ/change.go` lines
1413-1444): take a backup of the current variable map, then for each
supplied variable whose name has no entry in the (progressively updated)
map, add a definition typed from the supplied value; return the new map
together with the reset closure that reinstates the backup. -/
def AddVariablesToConfig (vars : VariableMap) (inputValues : List (String × InputValue)) :
    VariableMap × (VariableMap → VariableMap) :=
  let currentVars := vars
  let newVars := inputValues.foldl
    (fun acc p =>
      if (acc p.1).isSome then acc
      else fun name =>
        if name = p.1 then some ⟨p.1, p.2.valueType, p.2.valueType, p.2.sourceRange⟩
        else acc name)
    vars
  (newVars, fun _ => currentVars)

theorem addVars_foldl_preserves (inputValues : List (String × InputValue)) :
    ∀ (acc : VariableMap) (name : String), (acc name).isSome →
      (inputValues.foldl
        (fun acc p =>
          if (acc p.1).isSome then acc
          else fun n =>
            if n = p.1 then some ⟨p.1, p.2.valueType, p.2.valueType, p.2.sourceRange⟩
            else acc n)
        acc) name = acc name := by
  induction inputValues with
  | nil => intro acc name _; rfl
  | cons p rest ih =>
    intro acc name hsome
    rw [List.foldl_cons]
    by_cases hp : (acc p.1).isSome
    · rw [if_pos hp]
      exact ih acc name hsome
    · rw [if_neg hp]
      have hne : name ≠ p.1 := fun hc => hp (hc ▸ hsome)
      rw [ih _ name (by simp [hne, hsome])]
      simp [hne]

theorem addVars_foldl_untouched (inputValues : List (String × InputValue)) :
    ∀ (acc : VariableMap) (name : String), name ∉ inputValues.map Prod.fst →
      (inputValues.foldl
        (fun acc p =>
          if (acc p.1).isSome then acc
          else fun n =>
            if n = p.1 then some ⟨p.1, p.2.valueType, p.2.valueType, p.2.sourceRange⟩
            else acc n)
        acc) name = acc name := by
  induction inputValues with
  | nil => intro acc name _; rfl
  | cons p rest ih =>
    intro acc name hmem
    rw [List.foldl_cons]
    have hne : name ≠ p.1 := by
      intro hc
      exact hmem (by rw [List.map_cons]; exact hc ▸ List.mem_cons_self _ _)
    have hrest : name ∉ rest.map Prod.fst := by
      intro hc
      exact hmem (by rw [List.map_cons]; exact List.mem_cons_of_mem _ hc)
    by_cases hp : (acc p.1).isSome
    · rw [if_pos hp]
      exact ih acc name hrest
    · rw [if_neg hp]
      rw [ih _ name hrest]
      simp [hne]

/-- C10: `AddVariablesToConfig` only adds definitions for variables not
already present in the configuration — every pre-existing definition is
left unchanged, names it was not given are untouched — and the reset
closure it returns restores the configuration's variable map exactly to
its value from before the call. -/
theorem addVariablesToConfig_frame (vars : VariableMap)
    (inputValues : List (String × InputValue)) :
    (∀ name, (vars name).isSome →
      (AddVariablesToConfig vars inputValues).1 name = vars name) ∧
    (∀ name, name ∉ inputValues.map Prod.fst →
      (AddVariablesToConfig vars inputValues).1 name = vars name) ∧
    (AddVariablesToConfig vars inputValues).2 ((AddVariablesToConfig vars inputValues).1) =
      vars := by
  refine ⟨?_, ?_, rfl⟩
  · intro name hsome
    exact addVars_foldl_preserves inputValues vars name hsome
  · intro name hmem
    exact addVars_foldl_untouched inputValues vars name hmem

/-- C10 witness: with one pre-existing variable and two supplied values,
the pre-existing definition survives, an unrelated name stays absent, and
the reset closure restores the original map. -/
theorem addVariablesToConfig_frame_witness :
    (let vars : VariableMap := fun n =>
      if n = "region" then some ⟨"region", .string, .string, ⟨"main.tf", 1, 1⟩⟩ else none
    let inputValues : List (String × InputValue) :=
      [("region", ⟨.string, ⟨"t.tftest.hcl", 1, 1⟩⟩), ("zone", ⟨.string, ⟨"t.tftest.hcl", 2, 2⟩⟩)]
    (AddVariablesToConfig vars inputValues).1 "region" = vars "region" ∧
    (AddVariablesToConfig vars inputValues).1 "other" = vars "other" ∧
    (AddVariablesToConfig vars inputValues).2 ((AddVariablesToConfig vars inputValues).1) = vars) :=
  ⟨(addVariablesToConfig_frame _ _).1 "region" (by decide),
   (addVariablesToConfig_frame _ _).2.1 "other" (by decide),
   (addVariablesToConfig_frame _ _).2.2⟩

end TerraformTrail
